import Mathlib

/-!
Shallow embedding of the documentation cache and context-retrieval engine of
`explain_config` (file `src/explain_config/docs_manager.py`, class `DocsManager`).

Python strings are modelled as `List Char`; the filesystem below a cache
directory is modelled as a list of `FileEntry` (relative path components plus
content), with directory existence meaning "some file lies under it".
Timestamps are integers in seconds; `timedelta(days=7)` is `7 * 86400` seconds.
Network interaction is modelled by passing the outcome of each HTTP request as
an explicit argument.
-/

/-- Python `str`, modelled as a list of characters. -/
abbrev Str := List Char

/-- Python `s.lower()` (ASCII case folding, as in the documentation corpus). -/
def strLower (s : Str) : Str := s.map Char.toLower

/-- Python `needle in hay` (substring containment). -/
def strContains (hay needle : Str) : Bool :=
  needle.isPrefixOf hay ||
    match hay with
    | [] => false
    | _ :: t => strContains t needle

/-- Python `s.split('\n')`. -/
def splitLines : Str → List Str
  | [] => [[]]
  | c :: rest =>
    if c = '\n' then [] :: splitLines rest
    else
      match splitLines rest with
      | [] => [[c]]
      | l :: ls => (c :: l) :: ls

/-- Python `'\n'.join(lines)`. -/
def joinLines (ls : List Str) : Str := List.intercalate ['\n'] ls

/-- Python `'\n\n'.join(parts)`. -/
def joinBlocks (ls : List Str) : Str := List.intercalate ['\n', '\n'] ls

/-- Python `line.startswith('#')`. -/
def startsHash : Str → Bool
  | '#' :: _ => true
  | _ => false

/-- Python `name.endswith('.md')` (the `rglob("*.md")` filter). -/
def endsMd (s : Str) : Bool := List.isSuffixOf ".md".toList s

/-- The value found under the `"last_updated"` key of a cache-info JSON file:
either a falsy empty string, a string `datetime.fromisoformat` rejects, or a
string parsing to timestamp `t` (seconds). -/
inductive TsVal
  | empty
  | invalid
  | time (t : Int)
  deriving DecidableEq

/-- The on-disk state of a `cache_info.json` file: absent, unreadable or not
JSON (`json.JSONDecodeError` / `IOError`), or a JSON object whose optional
`"last_updated"` entry is given (extra keys such as `"version"` and
`"files_downloaded"` do not affect any modelled behavior and are elided). -/
inductive JsonFile
  | absent
  | malformed
  | valid (lastUpdated : Option TsVal)
  deriving DecidableEq

/-- `DocsManager._get_cache_info` / `_get_otel_cache_info`: returns the parsed
object, or an empty dict when the file is absent or unparsable; projected to
the `"last_updated"` entry. -/
def get_cache_info : JsonFile → Option TsVal
  | .absent => none
  | .malformed => none
  | .valid d => d

/-- `DocsManager.CACHE_EXPIRY_DAYS` converted to seconds (`timedelta(days=7)`). -/
def cacheExpirySeconds : Int := 7 * 86400

/-- `DocsManager._is_cache_stale` / `_is_otel_cache_stale`: stale when
`last_updated` is missing or falsy, fails to parse, or
`now > last_updated + 7 days`. -/
def is_cache_stale (f : JsonFile) (now : Int) : Bool :=
  match get_cache_info f with
  | none => true
  | some .empty => true
  | some .invalid => true
  | some (.time t) => decide (now > t + cacheExpirySeconds)

/-- One file materialized under a cache directory: relative path components
(last one is the file name) and text content. -/
structure FileEntry where
  path : List Str
  content : Str
  deriving DecidableEq

/-- The mutable state of a `DocsManager` instance as far as the embedded
operations observe it: the upstream switch, and per source the cache-info
file and the document tree (`none` = directory missing). -/
structure DocsState where
  includeUpstream : Bool
  cacheInfo : JsonFile
  extracted : Option (List FileEntry)
  otelCacheInfo : JsonFile
  otelDocs : Option (List FileEntry)
  deriving DecidableEq

/-- Outcome of the single bulk-archive HTTP request and extraction:
a `requests.RequestException` (including a non-2xx raised by
`raise_for_status`), a download whose bytes are not a zip
(`zipfile.BadZipFile`), an archive whose extraction fails midway leaving
`partialFiles` behind, or a successful extraction of `files`. -/
inductive BulkOutcome
  | netError
  | badZip
  | extractError (partialFiles : List FileEntry)
  | ok (files : List FileEntry)
  deriving DecidableEq

/-- Result of `DocsManager.download_docs`: the returned boolean, or the raised
exception (`Failed to download docs`, `not a valid zip archive`,
`Error processing docs`). -/
inductive BulkResult
  | fetched
  | cached
  | fetchFailed
  | malformedZip
  | processError
  deriving DecidableEq

/-- `DocsManager.download_docs(force)`. Skips when `force` is false, the cache
is not stale and the extracted directory exists. Otherwise downloads; on
network failure nothing has been touched; on a bad zip the previous extracted
directory has already been removed and recreated empty (the `shutil.rmtree` +
`mkdir` on lines 97–100 run before `zipfile.ZipFile` raises); on an extraction
error the fresh directory holds whatever was extracted before the failure; on
success the corpus is wholly replaced and only then is the cache record
written. The written `docs.zip` blob is not part of the observed state. -/
def download_docs (st : DocsState) (force : Bool) (now : Int)
    (net : BulkOutcome) : BulkResult × DocsState :=
  if !force && !is_cache_stale st.cacheInfo now && st.extracted.isSome then
    (.cached, st)
  else
    match net with
    | .netError => (.fetchFailed, st)
    | .badZip => (.malformedZip, { st with extracted := some [] })
    | .extractError partialFiles =>
        (.processError, { st with extracted := some partialFiles })
    | .ok files =>
        (.fetched,
         { st with cacheInfo := .valid (some (.time now)), extracted := some files })

/-- Outcome of the raw-content HTTP GET for one candidate component:
`200` with a body whose write succeeds, `200` whose `write_text` raises an
`IOError`/`OSError`, `404`, `403`, any other status code, or a
`requests.RequestException` (timeout, connection error). -/
inductive RespOutcome
  | ok (body : Str)
  | okWriteFail (body : Str)
  | notFound
  | forbidden
  | otherStatus
  | transportError
  deriving DecidableEq

/-- What one iteration of the candidate loop of
`DocsManager.download_otel_docs` (lines 247–291) produces: the file written
under `<component_type>/<component_name>.md` (if any), whether
`files_downloaded` was incremented, and the `time.sleep` calls issued, in
milliseconds (2000 for the fixed 403 backoff, 50 for the courtesy delay after
a persisted download). An empty candidate name is skipped up front. -/
def processCandidate (ctype : Str) (name : Str) (resp : RespOutcome) :
    Option FileEntry × Bool × List Nat :=
  if name = [] then (none, false, [])
  else
    match resp with
    | .ok body => (some ⟨[ctype, name ++ ".md".toList], body⟩, true, [50])
    | .okWriteFail _ => (none, false, [])
    | .notFound => (none, false, [])
    | .forbidden => (none, false, [2000])
    | .otherStatus => (none, false, [])
    | .transportError => (none, false, [])

/-- Aggregate result of the fetch sweep: files persisted, value of the
`files_downloaded` counter, and the sleep log. -/
structure SweepResult where
  files : List FileEntry
  count : Nat
  sleeps : List Nat
  deriving DecidableEq

/-- The candidate loop for one component category: each candidate is visited
exactly once, in order, and never retried. -/
def sweepCategory (ctype : Str) : List (Str × RespOutcome) → SweepResult
  | [] => ⟨[], 0, []⟩
  | (name, resp) :: rest =>
    let (file, counted, sl) := processCandidate ctype name resp
    let r := sweepCategory ctype rest
    ⟨(file.toList) ++ r.files, (if counted then 1 else 0) + r.count, sl ++ r.sleeps⟩

/-- The whole four-category sweep of `download_otel_docs`, with the candidate
list per category already resolved (enumeration via the directory-listing API,
falling back to the curated static table, only determines which names appear
here). -/
def runSweeps : List (Str × List (Str × RespOutcome)) → SweepResult
  | [] => ⟨[], 0, []⟩
  | (ctype, cands) :: rest =>
    let r := sweepCategory ctype cands
    let r' := runSweeps rest
    ⟨r.files ++ r'.files, r.count + r'.count, r.sleeps ++ r'.sleeps⟩

/-- `DocsManager.download_otel_docs(force)`. Returns `False` immediately when
`include_upstream` is off. Skips when `force` is false, the upstream cache is
not stale and the docs directory exists. Otherwise the docs directory is
cleared and recreated, the sweep runs (it swallows every per-candidate
failure, so it never raises), and the upstream cache record is written only
when at least one file was downloaded; zero downloads returns `False` with
the record untouched. -/
def download_otel_docs (st : DocsState) (force : Bool) (now : Int)
    (sweeps : List (Str × List (Str × RespOutcome))) : Bool × DocsState :=
  if !st.includeUpstream then (false, st)
  else if !force && !is_cache_stale st.otelCacheInfo now && st.otelDocs.isSome then
    (false, st)
  else
    let r := runSweeps sweeps
    if r.count > 0 then
      (true,
       { st with otelCacheInfo := .valid (some (.time now)), otelDocs := some r.files })
    else
      (false, { st with otelDocs := some r.files })

/-- Python `Path.name`: the last path component. -/
def fname (e : FileEntry) : Str := e.path.getLastD []

/-- Whether a file lies under a directory (path-prefix test). -/
def underDir (dir : List Str) (e : FileEntry) : Bool := List.isPrefixOf dir e.path

/-- Directory existence: some file lies under it. -/
def dirExists (fs : List FileEntry) (dir : List Str) : Bool := fs.any (underDir dir)

/-- Python `Path.exists()` plus `read_text` for a concrete file path. -/
def getFile (fs : List FileEntry) (p : List Str) : Option FileEntry :=
  fs.find? (fun e => e.path == p)

/-- Python `dir.rglob("*.md")`: the markdown files under a directory, in
corpus order (filesystem iteration order is modelled by list order). -/
def mdUnder (fs : List FileEntry) (dir : List Str) : List FileEntry :=
  fs.filter (fun e => underDir dir e && endsMd (fname e))

/-- Python `str(path)` relative to the cache root, components joined by `/`.
The absolute cache-root prefix (`~/.explain_config/elastic_docs/extracted`)
contains neither `edot` nor `collector`, so eliding it preserves the only
check applied to this string. -/
def pathStr (e : FileEntry) : Str := List.intercalate ['/'] e.path

/-- `DocsManager.get_edot_collector_docs`: main reference doc, config docs,
component docs, then OpenTelemetry reference files whose path mentions
`edot` or `collector`. Empty when the extracted directory is missing. -/
def get_edot_collector_docs (st : DocsState) : List FileEntry :=
  match st.extracted with
  | none => []
  | some fs =>
    let edotRef : List Str := ["reference".toList, "edot-collector".toList]
    let part1 :=
      if dirExists fs edotRef then
        (match getFile fs (edotRef ++ ["edot-collector.md".toList]) with
         | some e => [e]
         | none => [])
        ++ (if dirExists fs (edotRef ++ ["config".toList]) then
              mdUnder fs (edotRef ++ ["config".toList]) else [])
        ++ (if dirExists fs (edotRef ++ ["components".toList]) then
              mdUnder fs (edotRef ++ ["components".toList]) else [])
      else []
    let otelRef : List Str := ["reference".toList, "opentelemetry".toList]
    let part2 :=
      if dirExists fs otelRef then
        (mdUnder fs otelRef).filter (fun e =>
          strContains (strLower (pathStr e)) "edot".toList ||
          strContains (strLower (pathStr e)) "collector".toList)
      else []
    part1 ++ part2

/-- `DocsManager.get_otel_collector_docs`: all markdown files of the upstream
corpus; empty when upstream is disabled or the directory is missing. -/
def get_otel_collector_docs (st : DocsState) : List FileEntry :=
  if !st.includeUpstream then []
  else
    match st.otelDocs with
    | none => []
    | some fs => fs.filter (fun e => endsMd (fname e))

/-- The per-line mention test of lines 483 and 418: lowercased name in the
lowercased text, or the exact-case name in the original text. -/
def mentionsName (cl cname : Str) (line : Str) : Bool :=
  strContains (strLower line) cl || strContains line cname

/-- The scanning loop of `DocsManager._extract_relevant_sections`
(lines 479–498), translated statement by statement: `i` is the line index,
`inSec` the `in_relevant_section` flag, `secStart` the current
`section_start` (`max(0, i - 3)` for the most recent mention line), `acc` the
captured lines. Capture begins at the first mention line itself; a capture
stops right after the appended line once more than 50 lines or more than 2000
joined characters are held, or when the line starts with `#` and
`i > section_start + 10`. -/
def extractAux (cl cname : Str) : List Str → Nat → Bool → Nat → List Str → List Str
  | [], _, _, _, acc => acc
  | line :: rest, i, inSec, secStart, acc =>
    let mention := mentionsName cl cname line
    let secStart' := if mention then i - 3 else secStart
    let inSec' := inSec || mention
    if inSec' then
      let acc' := acc ++ [line]
      if acc'.length > 50 || (joinLines acc').length > 2000 then acc'
      else if startsHash line && i > secStart' + 10 then acc'
      else extractAux cl cname rest (i + 1) inSec' secStart' acc'
    else
      extractAux cl cname rest (i + 1) inSec' secStart' acc

/-- `DocsManager._extract_relevant_sections`: the joined window, kept only
when longer than 100 characters, otherwise the empty string. (The
`component_config` parameter of the Python function is never read.) -/
def extract_relevant_sections (content : Str) (cname : Str) : Str :=
  let res := joinLines (extractAux (strLower cname) cname (splitLines content) 0 false 0 [])
  if res.length > 100 then res else []

/-- The opening delimiter of the regex used by `_get_field_context`. -/
def yamlOpen : Str := "```yaml\n".toList

/-- The closing delimiter of the same regex. -/
def yamlClose : Str := "\n```".toList

/-- Scanner equivalent to `re.findall(r'```yaml\n(.*?)\n```', content,
re.DOTALL)`: non-greedy, non-overlapping, left to right. The second argument
is `none` while looking for an opener and `some acc` inside a block. -/
def yamlAux : Str → Option Str → List Str
  | [], _ => []
  | c :: rest, none =>
    if yamlOpen.isPrefixOf (c :: rest) then
      yamlAux ((c :: rest).drop yamlOpen.length) (some [])
    else yamlAux rest none
  | c :: rest, some acc =>
    if yamlClose.isPrefixOf (c :: rest) then
      acc :: yamlAux ((c :: rest).drop yamlClose.length) none
    else yamlAux rest (some (acc ++ [c]))
termination_by s _ => s.length
decreasing_by
  all_goals simp [yamlOpen, yamlClose]
  all_goals omega

/-- All fenced yaml example snippets of a document. -/
def findYamlBlocks (content : Str) : List Str := yamlAux content none

/-- `DocsManager._get_field_context`: scan the config reference docs; from
each one mentioning the component take the first of its first two yaml blocks
that mentions the component, capped at 1000 characters; join at most two such
entries. -/
def get_field_context (st : DocsState) (cname : Str) : Str :=
  match st.extracted with
  | none => []
  | some fs =>
    let cfgDir : List Str := ["reference".toList, "edot-collector".toList, "config".toList]
    if !dirExists fs cfgDir then []
    else
      let cl := strLower cname
      let fieldInfo := (mdUnder fs cfgDir).filterMap (fun e =>
        if strContains (strLower e.content) cl then
          match ((findYamlBlocks e.content).take 2).find?
              (fun b => strContains (strLower b) cl) with
          | some b => some ("Example configuration:\n".toList ++ b.take 1000)
          | none => none
        else none)
      joinBlocks (fieldInfo.take 2)

/-- `DocsManager._get_troubleshooting_context`: first troubleshooting doc
whose file name contains the component name (capped at 1500 characters), else
the generic `opentelemetry.md` if its body mentions the component. -/
def get_troubleshooting_context (st : DocsState) (cname : Str) : Str :=
  match st.extracted with
  | none => []
  | some fs =>
    let tDir : List Str := ["troubleshoot".toList, "ingest".toList, "opentelemetry".toList]
    if !dirExists fs tDir then []
    else
      let cl := strLower cname
      let info :=
        match (mdUnder fs tDir).find? (fun e => strContains (strLower (fname e)) cl) with
        | some e => ["From: ".toList ++ fname e ++ "\n".toList ++ e.content.take 1500]
        | none =>
          match getFile fs (tDir ++ ["opentelemetry.md".toList]) with
          | some e =>
            if strContains (strLower e.content) cl then
              ["From: General OpenTelemetry Troubleshooting\n".toList ++ e.content.take 1500]
            else []
          | none => []
      joinBlocks (info.take 1)

/-- The three priority tiers of the matcher. -/
structure Classified where
  exact : List FileEntry
  contentM : List FileEntry
  typeM : List FileEntry
  deriving DecidableEq

/-- The classification loop of `get_component_context` (lines 401–425): per
document, the first matching tier wins — file name containing the name (both
checks run against the lowercased file name), then body containing the name,
then body containing the component type. Document order is preserved inside
each tier. -/
def classifyDocs (cl cname tl : Str) : List FileEntry → Classified
  | [] => ⟨[], [], []⟩
  | e :: rest =>
    let r := classifyDocs cl cname tl rest
    let fnameL := strLower (fname e)
    if strContains fnameL cl || strContains fnameL cname then
      ⟨e :: r.exact, r.contentM, r.typeM⟩
    else if strContains (strLower e.content) cl || strContains e.content cname then
      ⟨r.exact, e :: r.contentM, r.typeM⟩
    else if strContains (strLower e.content) tl then
      ⟨r.exact, r.contentM, e :: r.typeM⟩
    else
      ⟨r.exact, r.contentM, r.typeM⟩

/-- Block layout `---\nFrom: <label>\n<body>\n---`. -/
def mkBlock (label body : Str) : Str :=
  "---\nFrom: ".toList ++ label ++ "\n".toList ++ body ++ "\n---".toList

/-- An ExactName block: the first 3000 characters of the document. -/
def exactBlock (e : FileEntry) : Str := mkBlock (fname e) (e.content.take 3000)

/-- A ContentMention block: the extracted window if substantial, else the
first 2000 characters of the document. -/
def contentBlock (cname : Str) (e : FileEntry) : Str :=
  let sections := extract_relevant_sections e.content cname
  if sections ≠ [] then mkBlock (fname e) sections
  else mkBlock (fname e) (e.content.take 2000)

/-- The document list scanned by `get_component_context` (lines 381–386):
EDOT docs followed by the upstream docs when upstream is enabled. -/
def docsList (st : DocsState) : List FileEntry :=
  get_edot_collector_docs st ++
    (if st.includeUpstream then get_otel_collector_docs st else [])

/-- Lines 427–444: the ranked blocks — up to 2 ExactName blocks followed by
up to 2 ContentMention blocks. -/
def baseParts (st : DocsState) (ctype cname : Str) : List Str :=
  let c := classifyDocs (strLower cname) cname (strLower ctype) (docsList st)
  (c.exact.take 2).map exactBlock ++ (c.contentM.take 2).map (contentBlock cname)

/-- Lines 447–450: the optional field-example block, appended when a truthy
`component_config` was passed, fewer than 3 parts exist and the field scan
found something. -/
def withFieldPart (st : DocsState) (cname : Str) (hasConfig : Bool) (p : List Str) : List Str :=
  if hasConfig && p.length < 3 then
    if get_field_context st cname ≠ [] then
      p ++ ["---\nField-specific context:\n".toList ++ get_field_context st cname ++ "\n---".toList]
    else p
  else p

/-- Lines 452–455: the optional troubleshooting block. -/
def withTroublePart (st : DocsState) (cname : Str) (p : List Str) : List Str :=
  if get_troubleshooting_context st cname ≠ [] && p.length < 3 then
    p ++ ["---\nTroubleshooting:\n".toList ++ get_troubleshooting_context st cname ++ "\n---".toList]
  else p

/-- Lines 457–465: the generic EDOT reference, used only when no other part
was produced. -/
def fallbackParts (st : DocsState) : List Str :=
  match st.extracted with
  | none => []
  | some fs =>
    match getFile fs
        ["reference".toList, "edot-collector".toList, "edot-collector.md".toList] with
    | some e =>
      ["---\nFrom: EDOT Collector Reference\n".toList ++ e.content.take 2000 ++ "\n---".toList]
    | none => []

/-- The `context_parts` list built by `DocsManager.get_component_context`
before the final cap. `hasConfig` models the truthiness of
`component_config`. -/
def contextParts (st : DocsState) (ctype cname : Str) (hasConfig : Bool) : List Str :=
  let p := withTroublePart st cname (withFieldPart st cname hasConfig (baseParts st ctype cname))
  if p = [] then fallbackParts st else p

/-- The blocks actually emitted: `context_parts[:3]` (line 467). -/
def assembledBlocks (st : DocsState) (ctype cname : Str) (hasConfig : Bool) : List Str :=
  (contextParts st ctype cname hasConfig).take 3

/-- `DocsManager.get_component_context`: the capped blocks joined by a blank
line. -/
def get_component_context (st : DocsState) (ctype cname : Str) (hasConfig : Bool) : Str :=
  joinBlocks (assembledBlocks st ctype cname hasConfig)

/-- A populated pre-state: a fresh cache record and a non-empty extracted
corpus. -/
def c1PreState : DocsState :=
  ⟨true, .valid (some (.time 0)),
   some [⟨["old.md".toList], "previous corpus file".toList⟩], .absent, none⟩

/-- A short markdown file under the upstream `receiver` category. -/
def rcvDoc (nm : String) (body : String) : FileEntry :=
  ⟨["receiver".toList, nm.toList], body.toList⟩

/-- Ten documents whose file names all contain the component name `otlp`. -/
def tenExactState : DocsState :=
  ⟨true, .absent, none, .absent,
   some [rcvDoc "otlp0.md" "a", rcvDoc "otlp1.md" "b", rcvDoc "otlp2.md" "c",
         rcvDoc "otlp3.md" "d", rcvDoc "otlp4.md" "e", rcvDoc "otlp5.md" "f",
         rcvDoc "otlp6.md" "g", rcvDoc "otlp7.md" "h", rcvDoc "otlp8.md" "i",
         rcvDoc "otlp9.md" "j"]⟩

/-- A document whose body (not file name) mentions the component `otlp`. -/
def generalDoc : FileEntry :=
  ⟨["receiver".toList, "general.md".toList],
   "Notes: otlp here, otlp there, otlp again, otlp once more, and otlp.".toList⟩

/-- A document whose file name contains the component `otlp`. -/
def otlpDoc : FileEntry :=
  ⟨["receiver".toList, "otlpreceiver.md".toList],
   "The OTLP receiver accepts telemetry.".toList⟩

/-- A corpus holding the body-matching document before the name-matching one. -/
def priorityState : DocsState :=
  ⟨true, .absent, none, .absent, some [generalDoc, otlpDoc]⟩

/-- A document whose first mention of `otlp` sits on its fifth line; the
claim predicts a window opening three lines earlier, on the `BEFORE3` line. -/
def c4Content : Str :=
  ("Filler line zero of the sample document.\n" ++
   "BEFORE3 marker line that the claim would include.\n" ++
   "Filler line two.\n" ++
   "Filler line three.\n" ++
   "The otlp receiver is configured here with many options and knobs.\n" ++
   "More detail about the otlp receiver follows to make the window long.\n" ++
   "Even more text pushing the captured window well past one hundred characters.").toList

/-- C2: a cache record is stale exactly when it is absent, unparsable,
missing (or holding a falsy/unparsable) `last_updated`, or
`now > last_updated + 7 days`; in particular `now - 6 days 23 hours` is not
stale, `now - 7 days 1 hour` is stale, and an absent record is stale. -/
theorem cache_staleness_boundary :
    (∀ (f : JsonFile) (now : Int), is_cache_stale f now = true ↔
      (f = .absent ∨ f = .malformed ∨ f = .valid none ∨ f = .valid (some .empty) ∨
       f = .valid (some .invalid) ∨
       ∃ t, f = .valid (some (.time t)) ∧ now > t + cacheExpirySeconds)) ∧
    (∀ now : Int, is_cache_stale (.valid (some (.time (now - 601200)))) now = false) ∧
    (∀ now : Int, is_cache_stale (.valid (some (.time (now - 608400)))) now = true) ∧
    (∀ now : Int, is_cache_stale .absent now = true) := by
  refine ⟨?_, ?_, ?_, ?_⟩
  · intro f now
    match f with
    | .absent => simp [is_cache_stale, get_cache_info]
    | .malformed => simp [is_cache_stale, get_cache_info]
    | .valid none => simp [is_cache_stale, get_cache_info]
    | .valid (some .empty) => simp [is_cache_stale, get_cache_info]
    | .valid (some .invalid) => simp [is_cache_stale, get_cache_info]
    | .valid (some (.time t)) => simp [is_cache_stale, get_cache_info]
  · intro now
    simp only [is_cache_stale, get_cache_info, cacheExpirySeconds, decide_eq_false_iff_not]
    omega
  · intro now
    simp only [is_cache_stale, get_cache_info, cacheExpirySeconds, decide_eq_true_eq]
    omega
  · intro now
    rfl

/-- Witness for `cache_staleness_boundary` at concrete inputs. -/
theorem cache_staleness_boundary_witness :
    is_cache_stale .absent 0 = true ∧
    is_cache_stale (.valid (some (.time (0 - 608400)))) 0 = true ∧
    is_cache_stale (.valid (some (.time (0 - 601200)))) 0 = false :=
  ⟨cache_staleness_boundary.2.2.2 0, cache_staleness_boundary.2.2.1 0,
   cache_staleness_boundary.2.1 0⟩

/-- C5: `download_docs` performs a fresh download exactly when `force` is
true, or the cache is stale, or the extracted corpus directory is missing; it
returns `True` exactly when a fresh download occurred (a `True` return is
only possible on a successful download), and `force = true` downloads even on
a fresh, fully populated cache. -/
theorem download_docs_fresh_iff :
    (∀ (st : DocsState) (force : Bool) (now : Int) (files : List FileEntry),
      (download_docs st force now (.ok files)).1 = .fetched ↔
        (force || is_cache_stale st.cacheInfo now || st.extracted.isNone) = true) ∧
    (∀ (st : DocsState) (force : Bool) (now : Int) (files : List FileEntry),
      (download_docs st force now (.ok files)).1 = .cached ↔
        (force || is_cache_stale st.cacheInfo now || st.extracted.isNone) = false) ∧
    (∀ (st : DocsState) (force : Bool) (now : Int) (net : BulkOutcome),
      (download_docs st force now net).1 = .fetched → ∃ files, net = .ok files) ∧
    (∀ (st : DocsState) (now : Int) (files : List FileEntry),
      download_docs st true now (.ok files) =
        (.fetched,
         { st with cacheInfo := .valid (some (.time now)), extracted := some files })) := by
  refine ⟨?_, ?_, ?_, ?_⟩
  · intro st force now files
    simp only [download_docs]
    cases force <;> cases hs : is_cache_stale st.cacheInfo now <;>
      cases he : st.extracted <;> simp
  · intro st force now files
    simp only [download_docs]
    cases force <;> cases hs : is_cache_stale st.cacheInfo now <;>
      cases he : st.extracted <;> simp
  · intro st force now net h
    simp only [download_docs] at h
    split at h
    · simp at h
    · cases net with
      | netError => simp at h
      | badZip => simp at h
      | extractError p => simp at h
      | ok files => exact ⟨files, rfl⟩
  · intro st now files
    simp [download_docs]

/-- Witness for `download_docs_fresh_iff` at a concrete stale state. -/
theorem download_docs_fresh_iff_witness :
    (download_docs ⟨true, .absent, none, .absent, none⟩ false 0 (.ok [])).1 = .fetched :=
  (download_docs_fresh_iff.1 ⟨true, .absent, none, .absent, none⟩ false 0 []).mpr (by decide)

/-- C1 counterexample: a malformed-archive failure raises, yet the previously
extracted corpus is not left as it was — it has been replaced by an empty
directory (the cache record alone survives). -/
theorem download_docs_badzip_wipes_corpus :
    (download_docs c1PreState true 0 .badZip).1 = .malformedZip ∧
    (download_docs c1PreState true 0 .badZip).2.extracted ≠ c1PreState.extracted ∧
    (download_docs c1PreState true 0 .badZip).2.extracted = some [] ∧
    (download_docs c1PreState true 0 .badZip).2.cacheInfo = c1PreState.cacheInfo := by
  refine ⟨rfl, ?_, rfl, rfl⟩
  decide

/-- C1 amended: every failure of `download_docs` raises and leaves the cache
record untouched; a network failure also leaves the extracted corpus
untouched, but a malformed archive or an extraction error strikes after the
old corpus was already deleted, leaving an empty (respectively partially
extracted) corpus directory behind. When no download is attempted nothing
changes at all. -/
theorem download_docs_failure_states :
    ∀ (st : DocsState) (force : Bool) (now : Int) (partialFiles : List FileEntry),
      ((force || is_cache_stale st.cacheInfo now || st.extracted.isNone) = true →
        download_docs st force now .netError = (.fetchFailed, st)) ∧
      ((force || is_cache_stale st.cacheInfo now || st.extracted.isNone) = true →
        download_docs st force now .badZip =
          (.malformedZip, { st with extracted := some [] })) ∧
      ((force || is_cache_stale st.cacheInfo now || st.extracted.isNone) = true →
        download_docs st force now (.extractError partialFiles) =
          (.processError, { st with extracted := some partialFiles })) ∧
      ((force || is_cache_stale st.cacheInfo now || st.extracted.isNone) = false →
        ∀ net, download_docs st force now net = (.cached, st)) := by
  intro st force now partialFiles
  refine ⟨?_, ?_, ?_, ?_⟩ <;>
  · intro h
    simp only [download_docs]
    cases force <;> cases hs : is_cache_stale st.cacheInfo now <;>
      cases he : st.extracted <;> simp_all

/-- C10: with `include_upstream = False`, `download_otel_docs` returns
`False` immediately for every value of `force` and every possible sweep,
leaving the whole state (including the per-component cache record and
corpus) untouched. -/
theorem download_otel_docs_upstream_gate :
    ∀ (st : DocsState) (force : Bool) (now : Int)
      (sweeps : List (Str × List (Str × RespOutcome))),
      st.includeUpstream = false →
      download_otel_docs st force now sweeps = (false, st) := by
  intro st force now sweeps h
  simp [download_otel_docs, h]

/-- Witness for `download_otel_docs_upstream_gate`: even `force = true` with
a sweep that would succeed changes nothing. -/
theorem download_otel_docs_upstream_gate_witness :
    download_otel_docs ⟨false, .absent, none, .absent, none⟩ true 0
      [("receiver".toList, [("otlpreceiver".toList, .ok "body".toList)])] =
      (false, ⟨false, .absent, none, .absent, none⟩) :=
  download_otel_docs_upstream_gate ⟨false, .absent, none, .absent, none⟩ true 0
    [("receiver".toList, [("otlpreceiver".toList, .ok "body".toList)])] rfl

/-- C7: when the sweep actually runs, the upstream cache record is rewritten
exactly when at least one file was downloaded; zero downloads returns `False`
with the record untouched (only the corpus directory, recreated by the sweep,
changes). -/
theorem download_otel_docs_record_update :
    ∀ (st : DocsState) (force : Bool) (now : Int)
      (sweeps : List (Str × List (Str × RespOutcome))),
      st.includeUpstream = true →
      (force || is_cache_stale st.otelCacheInfo now || st.otelDocs.isNone) = true →
      (((runSweeps sweeps).count = 0 →
         download_otel_docs st force now sweeps =
           (false, { st with otelDocs := some (runSweeps sweeps).files })) ∧
       (0 < (runSweeps sweeps).count →
         download_otel_docs st force now sweeps =
           (true, { st with otelCacheInfo := .valid (some (.time now)),
                            otelDocs := some (runSweeps sweeps).files }))) := by
  intro st force now sweeps hup hattempt
  have hskip : (!force && !is_cache_stale st.otelCacheInfo now && st.otelDocs.isSome) = false := by
    cases force <;> cases hs : is_cache_stale st.otelCacheInfo now <;>
      cases ho : st.otelDocs <;> simp_all
  constructor
  · intro hzero
    simp [download_otel_docs, hup, hskip, hzero]
  · intro hpos
    simp [download_otel_docs, hup, hskip, Nat.pos_iff_ne_zero.mp hpos,
      Nat.not_eq_zero_of_lt hpos]

/-- Witness for `download_otel_docs_record_update`: an empty sweep downloads
zero files, returns `False` and leaves the record untouched. -/
theorem download_otel_docs_record_update_witness :
    download_otel_docs ⟨true, .absent, none, .absent, none⟩ true 0 [] =
      (false, { (⟨true, .absent, none, .absent, none⟩ : DocsState) with otelDocs := some [] }) :=
  (download_otel_docs_record_update ⟨true, .absent, none, .absent, none⟩ true 0 []
    rfl (by decide)).1 rfl

/-- C6: per-candidate response handling of the fetch sweep — `200` persists
`<category>/<name>.md` and counts a success (followed by the 50 ms courtesy
delay), `404` skips silently, `403` sleeps the fixed 2-second backoff and
moves on to the next candidate without retrying, and any other status or
transport error skips and continues; the concrete sweep with 3 of 5
candidates answering `404` and 2 answering `200` records exactly 2 successes
(and, the sweep being a total function, raises nothing). -/
theorem sweep_response_handling :
    (∀ (ct : Str) (c : Char) (name : Str) (body : Str),
      processCandidate ct (c :: name) (.ok body) =
        (some ⟨[ct, (c :: name) ++ ".md".toList], body⟩, true, [50])) ∧
    (∀ (ct : Str) (c : Char) (name : Str),
      processCandidate ct (c :: name) .notFound = (none, false, [])) ∧
    (∀ (ct : Str) (c : Char) (name : Str),
      processCandidate ct (c :: name) .forbidden = (none, false, [2000])) ∧
    (∀ (ct : Str) (c : Char) (name : Str),
      processCandidate ct (c :: name) .otherStatus = (none, false, [])) ∧
    (∀ (ct : Str) (c : Char) (name : Str),
      processCandidate ct (c :: name) .transportError = (none, false, [])) ∧
    (runSweeps [("receiver".toList,
        [("alpha".toList, .notFound), ("beta".toList, .ok "docA".toList),
         ("gamma".toList, .notFound), ("delta".toList, .ok "docB".toList),
         ("epsilon".toList, .notFound)])]).count = 2 := by
  refine ⟨?_, ?_, ?_, ?_, ?_, ?_⟩
  · intro ct c name body
    simp [processCandidate]
  · intro ct c name
    simp [processCandidate]
  · intro ct c name
    simp [processCandidate]
  · intro ct c name
    simp [processCandidate]
  · intro ct c name
    simp [processCandidate]
  · decide

/-- C8: the assembled context never holds more than 3 blocks, whatever the
corpus and query; with 10 documents all matching ExactName, only the 2
ExactName slots fill, well within the cap. -/
theorem context_block_cap :
    (∀ (st : DocsState) (ctype cname : Str) (hasConfig : Bool),
      (assembledBlocks st ctype cname hasConfig).length ≤ 3) ∧
    (assembledBlocks tenExactState "receiver".toList "otlp".toList false).length = 2 := by
  constructor
  · intro st ctype cname hasConfig
    simp only [assembledBlocks, List.length_take]
    omega
  · decide

/-- C9: against an absent (not yet fetched) or empty corpus,
`get_component_context` returns the empty string for every query — it is a
total function, so no error reaches the caller. -/
theorem context_graceful_empty :
    ∀ (up hasConfig : Bool) (ci oci : JsonFile) (ctype cname : Str),
      get_component_context ⟨up, ci, none, oci, none⟩ ctype cname hasConfig = [] ∧
      get_component_context ⟨up, ci, some [], oci, some []⟩ ctype cname hasConfig = [] := by
  intro up hasConfig ci oci ctype cname
  cases up <;> cases hasConfig <;> exact ⟨rfl, rfl⟩

/-- Appending the optional field block never disturbs the first block. -/
theorem withFieldPart_cons (st : DocsState) (cname : Str) (hasConfig : Bool)
    (p : List Str) (x : Str) (hp : ∃ l, p = x :: l) :
    ∃ l, withFieldPart st cname hasConfig p = x :: l := by
  obtain ⟨l, rfl⟩ := hp
  unfold withFieldPart
  split
  · split
    · exact ⟨_, by rw [List.cons_append]⟩
    · exact ⟨l, rfl⟩
  · exact ⟨l, rfl⟩

/-- Appending the optional troubleshooting block never disturbs the first
block. -/
theorem withTroublePart_cons (st : DocsState) (cname : Str)
    (p : List Str) (x : Str) (hp : ∃ l, p = x :: l) :
    ∃ l, withTroublePart st cname p = x :: l := by
  obtain ⟨l, rfl⟩ := hp
  unfold withTroublePart
  split
  · exact ⟨_, by rw [List.cons_append]⟩
  · exact ⟨l, rfl⟩

/-- C3: tiers are assigned ExactName > ContentMention > TypeMention with the
first match winning per document; whenever some document matched ExactName,
the first emitted block is the ExactName block of the first such document,
ahead of every ContentMention block — demonstrated on a corpus holding
`otlpreceiver.md` (file-name match) and `general.md` (body mentions `otlp`
five times). -/
theorem context_priority_order :
    (∀ (st : DocsState) (ctype cname : Str) (hasConfig : Bool) (e : FileEntry)
        (rest : List FileEntry),
      (classifyDocs (strLower cname) cname (strLower ctype) (docsList st)).exact = e :: rest →
      (assembledBlocks st ctype cname hasConfig).head? = some (exactBlock e)) ∧
    (classifyDocs (strLower "otlp".toList) "otlp".toList (strLower "receiver".toList)
        (docsList priorityState)).exact = [otlpDoc] ∧
    (classifyDocs (strLower "otlp".toList) "otlp".toList (strLower "receiver".toList)
        (docsList priorityState)).contentM = [generalDoc] ∧
    (assembledBlocks priorityState "receiver".toList "otlp".toList false).head? =
      some (exactBlock otlpDoc) := by
  refine ⟨?_, by decide, by decide, by decide⟩
  intro st ctype cname hasConfig e rest h
  have hbase : ∃ t, baseParts st ctype cname = exactBlock e :: t := by
    have h2 : List.take 2 (e :: rest) = e :: List.take 1 rest := rfl
    simp only [baseParts]
    rw [h, h2, List.map_cons, List.cons_append]
    exact ⟨_, rfl⟩
  obtain ⟨t0, ht0⟩ := hbase
  obtain ⟨t1, ht1⟩ := withFieldPart_cons st cname hasConfig _ _ ⟨t0, ht0⟩
  obtain ⟨t2, ht2⟩ := withTroublePart_cons st cname _ _ ⟨t1, ht1⟩
  have hp : contextParts st ctype cname hasConfig = exactBlock e :: t2 := by
    simp [contextParts, ht2]
  simp [assembledBlocks, hp]

/-- Witness for `context_priority_order` on the concrete two-document corpus. -/
theorem context_priority_order_witness :
    (assembledBlocks priorityState "receiver".toList "otlp".toList true).head? =
      some (exactBlock otlpDoc) :=
  context_priority_order.1 priorityState "receiver".toList "otlp".toList true otlpDoc []
    (by decide)

/-- Once capturing, the scan appends a contiguous run of the remaining lines
onto the accumulator. -/
theorem extractAux_true_append (cl cname : Str) :
    ∀ (rest : List Str) (i secStart : Nat) (acc : List Str),
      ∃ k, extractAux cl cname rest i true secStart acc = acc ++ rest.take k := by
  intro rest
  induction rest with
  | nil => exact fun i s acc => ⟨0, by simp [extractAux]⟩
  | cons line rest ih =>
    intro i s acc
    have hstep : extractAux cl cname (line :: rest) i true s acc =
        (if (decide ((acc ++ [line]).length > 50) ||
              decide ((joinLines (acc ++ [line])).length > 2000)) = true
         then acc ++ [line]
         else if (startsHash line &&
              decide (i > (if mentionsName cl cname line then i - 3 else s) + 10)) = true
         then acc ++ [line]
         else extractAux cl cname rest (i + 1) true
           (if mentionsName cl cname line then i - 3 else s) (acc ++ [line])) := rfl
    rw [hstep]
    split_ifs with h1 h2 h3
    all_goals first
      | exact ⟨1, rfl⟩
      | (obtain ⟨k, hk⟩ := ih (i + 1) (i - 3) (acc ++ [line])
         exact ⟨k + 1, by rw [hk, List.append_assoc]; rfl⟩)
      | (obtain ⟨k, hk⟩ := ih (i + 1) s (acc ++ [line])
         exact ⟨k + 1, by rw [hk, List.append_assoc]; rfl⟩)

/-- Once capturing with at most 50 held lines, the scan returns at most 51
lines. -/
theorem extractAux_true_length (cl cname : Str) :
    ∀ (rest : List Str) (i secStart : Nat) (acc : List Str),
      acc.length ≤ 50 → (extractAux cl cname rest i true secStart acc).length ≤ 51 := by
  intro rest
  induction rest with
  | nil =>
    intro i s acc h
    simpa [extractAux] using by omega
  | cons line rest ih =>
    intro i s acc h
    have hstep : extractAux cl cname (line :: rest) i true s acc =
        (if (decide ((acc ++ [line]).length > 50) ||
              decide ((joinLines (acc ++ [line])).length > 2000)) = true
         then acc ++ [line]
         else if (startsHash line &&
              decide (i > (if mentionsName cl cname line then i - 3 else s) + 10)) = true
         then acc ++ [line]
         else extractAux cl cname rest (i + 1) true
           (if mentionsName cl cname line then i - 3 else s) (acc ++ [line])) := rfl
    rw [hstep]
    split_ifs with h1 h2 h3
    all_goals first
      | (simp only [List.length_append, List.length_singleton]; omega)
      | (refine ih (i + 1) _ (acc ++ [line]) ?_
         simp only [Bool.or_eq_true, decide_eq_true_eq, not_or, List.length_append,
           List.length_singleton] at h1
         simp only [List.length_append, List.length_singleton]
         omega)

/-- Before the first mention line the scan captures nothing: the window it
returns is a prefix of the suffix of the document starting at the first line
that mentions the component. -/
theorem extractAux_false_window (cl cname : Str) :
    ∀ (rest : List Str) (i secStart : Nat),
      ∃ k, extractAux cl cname rest i false secStart [] =
        (rest.dropWhile (fun l => !mentionsName cl cname l)).take k := by
  intro rest
  induction rest with
  | nil => exact fun i s => ⟨0, by simp [extractAux]⟩
  | cons line rest ih =>
    intro i s
    have hstep : extractAux cl cname (line :: rest) i false s [] =
        (if mentionsName cl cname line = true then
           (if (decide (([line] : List Str).length > 50) ||
                 decide ((joinLines [line]).length > 2000)) = true
            then [line]
            else if (startsHash line &&
                 decide (i > (if mentionsName cl cname line then i - 3 else s) + 10)) = true
            then [line]
            else extractAux cl cname rest (i + 1) (false || mentionsName cl cname line)
              (if mentionsName cl cname line then i - 3 else s) [line])
         else extractAux cl cname rest (i + 1) (false || mentionsName cl cname line)
           (if mentionsName cl cname line then i - 3 else s) []) := rfl
    by_cases hm : mentionsName cl cname line = true
    · have hd : (line :: rest).dropWhile (fun l => !mentionsName cl cname l) = line :: rest := by
        simp [List.dropWhile_cons, hm]
      rw [hstep, hd]
      simp only [hm, Bool.or_true, eq_self_iff_true, if_true]
      split_ifs with h1 h2
      · exact ⟨1, rfl⟩
      · exact ⟨1, rfl⟩
      · obtain ⟨k, hk⟩ := extractAux_true_append cl cname rest (i + 1) (i - 3) [line]
        exact ⟨k + 1, by rw [hk]; rfl⟩
    · rw [Bool.not_eq_true] at hm
      have hd : (line :: rest).dropWhile (fun l => !mentionsName cl cname l) =
          rest.dropWhile (fun l => !mentionsName cl cname l) := by
        simp [List.dropWhile_cons, hm]
      rw [hstep, hd]
      simp only [hm, Bool.or_false, Bool.false_eq_true, if_false]
      exact ih (i + 1) s

/-- A non-empty window opens on a line that mentions the component. -/
theorem extractAux_false_head (cl cname : Str) :
    ∀ (rest : List Str) (i secStart : Nat) (h : Str) (t : List Str),
      extractAux cl cname rest i false secStart [] = h :: t →
      mentionsName cl cname h = true := by
  intro rest
  induction rest with
  | nil =>
    intro i s h t hw
    simp [extractAux] at hw
  | cons line rest ih =>
    intro i s h t hw
    have hstep : extractAux cl cname (line :: rest) i false s [] =
        (if mentionsName cl cname line = true then
           (if (decide (([line] : List Str).length > 50) ||
                 decide ((joinLines [line]).length > 2000)) = true
            then [line]
            else if (startsHash line &&
                 decide (i > (if mentionsName cl cname line then i - 3 else s) + 10)) = true
            then [line]
            else extractAux cl cname rest (i + 1) (false || mentionsName cl cname line)
              (if mentionsName cl cname line then i - 3 else s) [line])
         else extractAux cl cname rest (i + 1) (false || mentionsName cl cname line)
           (if mentionsName cl cname line then i - 3 else s) []) := rfl
    rw [hstep] at hw
    by_cases hm : mentionsName cl cname line = true
    · simp only [hm, Bool.or_true, eq_self_iff_true, if_true] at hw
      split_ifs at hw with h1 h2
      · cases hw
        exact hm
      · cases hw
        exact hm
      · obtain ⟨k, hk⟩ := extractAux_true_append cl cname rest (i + 1) (i - 3) [line]
        rw [hk] at hw
        cases hw
        exact hm
    · rw [Bool.not_eq_true] at hm
      simp only [hm, Bool.or_false, Bool.false_eq_true, if_false] at hw
      exact ih (i + 1) s h t hw

/-- The window never exceeds 51 lines. -/
theorem extractAux_false_length (cl cname : Str) :
    ∀ (rest : List Str) (i secStart : Nat),
      (extractAux cl cname rest i false secStart []).length ≤ 51 := by
  intro rest
  induction rest with
  | nil => intro i s; simp [extractAux]
  | cons line rest ih =>
    intro i s
    have hstep : extractAux cl cname (line :: rest) i false s [] =
        (if mentionsName cl cname line = true then
           (if (decide (([line] : List Str).length > 50) ||
                 decide ((joinLines [line]).length > 2000)) = true
            then [line]
            else if (startsHash line &&
                 decide (i > (if mentionsName cl cname line then i - 3 else s) + 10)) = true
            then [line]
            else extractAux cl cname rest (i + 1) (false || mentionsName cl cname line)
              (if mentionsName cl cname line then i - 3 else s) [line])
         else extractAux cl cname rest (i + 1) (false || mentionsName cl cname line)
           (if mentionsName cl cname line then i - 3 else s) []) := rfl
    rw [hstep]
    by_cases hm : mentionsName cl cname line = true
    · simp only [hm, Bool.or_true, eq_self_iff_true, if_true]
      split_ifs with h1 h2
      · simp
      · simp
      · exact extractAux_true_length cl cname rest (i + 1) (i - 3) [line] (by simp)
    · rw [Bool.not_eq_true] at hm
      simp only [hm, Bool.or_false, Bool.false_eq_true, if_false]
      exact ih (i + 1) s

set_option maxRecDepth 100000 in
/-- C4 counterexample: on `c4Content` the kept window is substantial (not the
fallback case), yet it does not start 3 lines before the first mention line —
the `BEFORE3` line the claim requires is absent and the window's first line
is the mention line itself. -/
theorem extract_window_counterexample :
    extract_relevant_sections c4Content "otlp".toList ≠ [] ∧
    strContains c4Content "BEFORE3".toList = true ∧
    strContains (extract_relevant_sections c4Content "otlp".toList) "BEFORE3".toList = false ∧
    (splitLines (extract_relevant_sections c4Content "otlp".toList)).head? =
      some "The otlp receiver is configured here with many options and knobs.".toList := by
  decide

/-- C4 amended: the ContentMention window opens at the first line containing
the component name itself — the point 3 lines earlier is only the origin of
the heading cutoff — and is a contiguous prefix of the document suffix
starting there; it holds at most 51 lines (the scan stops after first
exceeding 50 lines or 2000 joined characters, or at a heading line more than
10 lines past 3-before-the-most-recent-mention); a window of 100 characters
or less is discarded, and a document whose window was discarded contributes
its first 2000 characters instead. -/
theorem extract_window_amended :
    (∀ (content cname : Str),
      (extract_relevant_sections content cname = [] ∨
        ((extract_relevant_sections content cname).length > 100 ∧
         extract_relevant_sections content cname =
           joinLines (extractAux (strLower cname) cname (splitLines content) 0 false 0 []))) ∧
      (∃ k, extractAux (strLower cname) cname (splitLines content) 0 false 0 [] =
        ((splitLines content).dropWhile
          (fun l => !mentionsName (strLower cname) cname l)).take k) ∧
      (∀ (h : Str) (t : List Str),
        extractAux (strLower cname) cname (splitLines content) 0 false 0 [] = h :: t →
        mentionsName (strLower cname) cname h = true) ∧
      (extractAux (strLower cname) cname (splitLines content) 0 false 0 []).length ≤ 51) ∧
    (∀ (cname : Str) (e : FileEntry),
      extract_relevant_sections e.content cname = [] →
      contentBlock cname e = mkBlock (fname e) (e.content.take 2000)) := by
  constructor
  · intro content cname
    refine ⟨?_, ?_, ?_, ?_⟩
    · simp only [extract_relevant_sections]
      split_ifs with h
      · exact Or.inr ⟨h, rfl⟩
      · exact Or.inl rfl
    · exact extractAux_false_window (strLower cname) cname (splitLines content) 0 0
    · exact fun h t hw => extractAux_false_head (strLower cname) cname (splitLines content) 0 0 h t hw
    · exact extractAux_false_length (strLower cname) cname (splitLines content) 0 0
  · intro cname e h
    simp [contentBlock, h]

/-- Witness for `extract_window_amended`: a document that never mentions the
component is sent to the 2000-character fallback block. -/
theorem extract_window_amended_witness :
    contentBlock "otlp".toList ⟨["a.md".toList], "hello".toList⟩ =
      mkBlock (fname ⟨["a.md".toList], "hello".toList⟩)
        ((⟨["a.md".toList], "hello".toList⟩ : FileEntry).content.take 2000) :=
  extract_window_amended.2 "otlp".toList ⟨["a.md".toList], "hello".toList⟩ (by decide)

/-- Witness for `download_docs_failure_states` at a concrete populated state
with `force = true`. -/
theorem download_docs_failure_states_witness :
    download_docs c1PreState true 0 .netError = (.fetchFailed, c1PreState) :=
  (download_docs_failure_states c1PreState true 0 []).1 (by decide)
